import Mathlib

/-!
Verification of the interactsh LDAP responder (`pkg/server/ldap_server.go`)
against its natural-language specification.

Go strings are embedded as `List Char`; all inputs of interest (base DN
labels, domains, tokens) are ASCII, where Go's byte-wise `len`, slicing and
`strings` functions coincide with the character-wise operations used here.
Go's `time.Time` is abstracted to a `Nat` instant supplied to each handler
as `now`; `time.Now()` at emission stamps that instant.  Side effects
(protocol writes, storage calls, warning logs, the StartTLS transport swap)
are embedded as an explicit event trace produced by each handler.
-/

namespace LdapSpec

/-- Character class `[a-z0-9-]` of the identifier pattern built in
`handleSearch` (line 118 of `ldap_server.go`). -/
def isClassChar (c : Char) : Bool :=
  ('a' ≤ c && c ≤ 'z') || ('0' ≤ c && c ≤ '9') || c = '-'

/-- `strings.ReplaceAll(domain, ".", "\\.")` (line 115): escapes only the
dots of the configured domain. -/
def escapeDots : List Char → List Char
  | [] => []
  | '.' :: rest => '\\' :: '.' :: escapeDots rest
  | c :: rest => c :: escapeDots rest

/-- The pattern string handed to `regexp.Compile` (line 118):
`"(?:[a-z0-9\\-]+)\\." + domain` with the domain's dots escaped. -/
def patternChars (domain : List Char) : List Char :=
  ("(?:[a-z0-9\\-]+)\\.").data ++ escapeDots domain

/-- Balanced-parenthesis check on a pattern, with `\\` escaping the next
character.  Go's `regexp.Compile` rejects every pattern with an unmatched
unescaped parenthesis (`missing closing )` / `unexpected )`), so
`parensOk p 0 = false` is a sound witness that compilation fails. -/
def parensOk : List Char → Int → Bool
  | [], d => d = 0
  | '\\' :: _ :: rest, d => parensOk rest d
  | '(' :: rest, d => parensOk rest (d + 1)
  | ')' :: rest, d => d > 0 && parensOk rest (d - 1)
  | _ :: rest, d => parensOk rest d

/-- Domains made only of `a-z`, `0-9`, `-` and `.`.  For such a domain the
escaped pattern compiles and is the literal matcher embedded below; the
model restricts itself to this fragment (real root domains lie in it). -/
def domainLiteralOnly (domain : List Char) : Bool :=
  domain.all fun c => isClassChar c || c = '.'

/-- One anchored attempt of the compiled pattern
`(?:[a-z0-9\-]+)\.<domain>` at the head of `s`.  Since `.` is not in the
character class, the greedy `+` can only match the maximal class run, and
shorter runs can never be followed by the required literal dot, so the
match at a position is unique: maximal class run, then `.`, then the
literal domain. -/
def matchAt (domain s : List Char) : Option (List Char) :=
  let run := s.takeWhile isClassChar
  if run = [] then none
  else if (s.drop run.length).take (domain.length + 1) = '.' :: domain then
    some (run ++ '.' :: domain)
  else none

/-- `re.FindString` (line 119): leftmost match of the compiled pattern, or
the empty string when there is no match. -/
def findString (domain : List Char) : List Char → List Char
  | [] => []
  | s@(_ :: rest) =>
    match matchAt domain s with
    | some m => m
    | none => findString domain rest

/-- Prepend a character to the first field of a split. -/
def consHead (c : Char) : List (List Char) → List (List Char)
  | [] => [[c]]
  | p :: ps => (c :: p) :: ps

/-- `strings.Split(s, ".")` (line 121). -/
def splitDot : List Char → List (List Char)
  | [] => [[]]
  | c :: rest => if c = '.' then [] :: splitDot rest else consHead c (splitDot rest)

/-- `strings.Join(l, ".")` (line 130). -/
def joinDot : List (List Char) → List Char
  | [] => []
  | [p] => p
  | p :: ps => p ++ '.' :: joinDot ps

/-- The `for i, part := range parts` scan of `handleSearch`
(lines 125-133): every label of length 33 overwrites `uniqueID` with
itself and `fullID` with the dot-join of the labels up to and including
it (guarded by `i+1 <= len(parts)`). -/
def scanLoop (parts : List (List Char)) :
    Nat → List (List Char) → List Char × List Char → List Char × List Char
  | _, [], acc => acc
  | i, part :: rest, acc =>
    scanLoop parts (i + 1) rest
      (if part.length = 33 then
        (part, if i + 1 ≤ parts.length then joinDot (parts.take (i + 1)) else part)
      else acc)

/-- Identifier extraction of `handleSearch` (lines 113-134) for a domain
in the literal fragment: leftmost pattern match, split on dots, scan for
a 33-character label. -/
def extractIDs (domain base : List Char) : List Char × List Char :=
  let m := findString domain base
  let parts := if m = [] then [] else splitDot m
  if parts.length > 0 then scanLoop parts 0 parts ([], []) else ([], [])

/-- Comparison variant of `scanLoop`, written from the claim's reading:
the `i+1 <= len(parts)` guard is dropped and `fullID` is always the
dot-join of the labels up to the token. -/
def scanLoopNG (parts : List (List Char)) :
    Nat → List (List Char) → List Char × List Char → List Char × List Char
  | _, [], acc => acc
  | i, part :: rest, acc =>
    scanLoopNG parts (i + 1) rest
      (if part.length = 33 then (part, joinDot (parts.take (i + 1))) else acc)

/-- `extractIDs` with the guard-free scan, for the refinement part of the
loop-invariant claim. -/
def extractIDsNG (domain base : List Char) : List Char × List Char :=
  let m := findString domain base
  let parts := if m = [] then [] else splitDot m
  if parts.length > 0 then scanLoopNG parts 0 parts ([], []) else ([], [])

/-- The identifier-extraction step as executed by `handleSearch`.
`regexp.Compile`'s error is discarded by the source (`re, _ := ...`); when
the escaped pattern fails to compile the handler calls `FindString` on a
nil `*Regexp` and panics.  `none` models leaving the literal fragment
covered by this embedding (for the concrete domains used below it
coincides with the compile-failure panic, witnessed via `parensOk`). -/
def handleSearchIDs (domain base : List Char) : Option (List Char × List Char) :=
  if domainLiteralOnly domain then some (extractIDs domain base) else none

/-! ## Data model: interactions, responses, traced side effects -/

/-- The persisted `Interaction` entity; field defaults are Go's zero
values. -/
structure Interaction where
  Protocol : List Char := []
  UniqueID : List Char := []
  FullId : List Char := []
  RawRequest : List Char := []
  RemoteAddress : List Char := []
  Timestamp : Nat := 0
deriving DecidableEq

/-- Server options: the configured root domain and the server-wide
fallback token. -/
structure Options where
  Domain : List Char
  Token : List Char
deriving DecidableEq

/-- The two storage-boundary calls; the serialized payload is abstracted
to the record itself. -/
inductive StorageCall where
  | addInteraction (key : List Char) (record : Interaction)
  | addInteractionWithId (token : List Char) (record : Interaction)
deriving DecidableEq

def LDAPResultSuccess : Nat := 0
def LDAPResultOperationsError : Nat := 1
def LDAPResultCompareTrue : Nat := 6
def LDAPResultUnwillingToPerform : Nat := 53

/-- OID of the StartTLS extended operation (`ldap.NoticeOfStartTLS`). -/
def NoticeOfStartTLS : List Char := ("1.3.6.1.4.1.1466.20037").data

/-- An LDAP response as the handlers shape it: result code, optional
diagnostic message, optional response name. -/
structure Response where
  resultCode : Nat
  diagnostic : List Char := []
  responseName : List Char := []
deriving DecidableEq

/-- Observable side effects of one handler invocation, in program order:
protocol writes, storage calls (tagged with whether they were issued from
inside `logInteraction`), warning logs, the cooperative abandon signal,
and the `m.Client.SetConn(tlsConn)` transport swap. -/
inductive Event where
  | write (r : Response)
  | writeEntry
  | storage (viaRecorder : Bool) (c : StorageCall)
  | warn
  | abandonInflight
  | setConnTLS
deriving DecidableEq

/-- `interaction.Protocol = "ldap"; interaction.Timestamp = time.Now()`
as performed at emission time. -/
def stamped (now : Nat) (inter : Interaction) : Interaction :=
  { inter with Protocol := ("ldap").data, Timestamp := now }

/-- `logInteraction` (lines 393-406): stamp protocol and timestamp,
serialize, and store under the server-wide token; a serialization
failure or storage failure degrades to a logged warning.  `enc` is the
serialization-success predicate, `sf` the storage-failure flag. -/
def logInteraction (opts : Options) (enc : Interaction → Bool) (sf : Bool)
    (now : Nat) (inter : Interaction) : List Event :=
  let j := stamped now inter
  if enc j then
    Event.storage true (StorageCall.addInteractionWithId opts.Token j) ::
      (if sf then [Event.warn] else [])
  else [Event.warn]

/-! ## Transcript builders (the `strings.Builder` messages) -/

def bindMessage (ac n p : List Char) : List Char :=
  ("Type=Bind\nAuthenticationChoice=").data ++ ac ++ ("\nUser=").data ++ n ++
    ("\nPass=").data ++ p ++ ("\n").data

/-- A Search request as decoded by the wire layer; the filter and
attribute renderings are abstracted to the strings `fmt` would print. -/
structure SearchRequest where
  BaseObject : List Char
  Filter : List Char := []
  FilterString : List Char := []
  Attributes : List Char := []
  TimeLimit : Nat := 0
deriving DecidableEq

def searchMessage (r : SearchRequest) : List Char :=
  ("Type=Search\nBaseDn=").data ++ r.BaseObject ++ ("\nFilter=").data ++ r.Filter ++
    ("\nFilterString=").data ++ r.FilterString ++ ("\nAttributes=").data ++ r.Attributes ++
    ("\nTimeLimit=").data ++ (Nat.repr r.TimeLimit).data ++ ("\n").data

def compareMessage (attr val : List Char) : List Char :=
  ("Type=Compare\nAttribute name to compare=").data ++ attr ++
    ("\nAttribute value expected=").data ++ val ++ ("\n").data

def addMessage (entity : List Char) (attrs : List (List Char × List Char)) : List Char :=
  ("Type=Add\nEntity=").data ++ entity ++ ("\n").data ++
    attrs.flatMap fun tv =>
      ("Attribute Name=").data ++ tv.1 ++ (" Attribute Value=").data ++ tv.2 ++ ("\n").data

def deleteMessage (entity : List Char) : List Char :=
  ("Type=Delete\nEntity=").data ++ entity ++ ("\n").data

/-- `ldap.ModifyRequestChangeOperation{Add,Delete,Replace}`. -/
inductive ModOp where
  | add
  | del
  | replace
deriving DecidableEq

def modOpString : ModOp → List Char
  | .add => ("Add").data
  | .del => ("Delete").data
  | .replace => ("Replace").data

structure ModifyChange where
  operation : ModOp
  attr : List Char
  vals : List (List Char)
deriving DecidableEq

def joinSep (sep : List Char) : List (List Char) → List Char
  | [] => []
  | [v] => v
  | v :: vs => v ++ sep ++ joinSep sep vs

def modifyMessage (entity : List Char) (changes : List ModifyChange) : List Char :=
  ("Type=Modify\nEntity=").data ++ entity ++ ("\n").data ++
    changes.flatMap fun c =>
      ("Operation=").data ++ modOpString c.operation ++ (" Attribute=").data ++ c.attr ++
        (" Values=[").data ++ joinSep (" - ").data c.vals ++ ("]\n").data

def extendedMessage (name value : List Char) : List Char :=
  ("Type=Extended\nName=").data ++ name ++ ("\nValue=").data ++ value ++ ("\n").data

/-! ## TLS upgrade manager -/

/-- A certificate: the embedded self-signed localhost pair, or one that
the automatic-certificate provider would return. -/
inductive Cert where
  | embedded
  | provided (id : Nat)
deriving DecidableEq

/-- The ACME provider handle (`acme.AutoTLS`); `cert` is what its
`GetCertificateFunc()` would produce. -/
structure AutoTLS where
  cert : Cert
deriving DecidableEq

def VersionSSL30 : Nat := 0x0300
def VersionTLS12 : Nat := 0x0303

structure TLSConfig where
  minVersion : Nat
  maxVersion : Nat
  cert : Cert
  serverName : List Char
deriving DecidableEq

/-- `getTLSconfig` (lines 439-462), exactly as written: when `autoTls` is
non-nil it loads the embedded localhost key pair (the embedded PEM parses,
so `X509KeyPair`'s error is nil); when `autoTls` is nil the else branch
evaluates `ldapServer.autoTls.GetCertificateFunc()` on the nil pointer and
panics, modelled as `none`. -/
def getTLSconfig (autoTls : Option AutoTLS) : Option TLSConfig :=
  match autoTls with
  | some _ =>
    some { minVersion := VersionSSL30, maxVersion := VersionTLS12,
           cert := Cert.embedded, serverName := ("127.0.0.1").data }
  | none => none

/-! ## Operation handlers -/

/-- The identified interaction built inline by `handleSearch`
(lines 138-145). -/
def identifiedInteraction (u f msg host : List Char) (now : Nat) : Interaction :=
  { Protocol := ("ldap").data, UniqueID := u, FullId := f,
    RawRequest := msg, RemoteAddress := host, Timestamp := now }

def handleBind (opts : Options) (enc : Interaction → Bool) (sf : Bool) (now : Nat)
    (ac n p addr : List Char) : List Event :=
  [Event.write { resultCode := LDAPResultSuccess }] ++
    logInteraction opts enc sf now { RemoteAddress := addr, RawRequest := bindMessage ac n p }

/-- `handleSearch` (lines 85-162): write the synthetic entry and the done
response, run the identifier extraction on the base object, store the
identified record (if any) under the first 20 characters of the unique
id, then record the generic transcript.  `none` models the
regexp-compile panic path (see `handleSearchIDs`). -/
def handleSearch (opts : Options) (enc : Interaction → Bool) (sf : Bool) (now : Nat)
    (r : SearchRequest) (host : List Char) : Option (List Event) :=
  match handleSearchIDs opts.Domain r.BaseObject with
  | none => none
  | some (uniqueID, fullID) =>
    let message := searchMessage r
    let idEvents :=
      if uniqueID ≠ [] then
        let inter := identifiedInteraction uniqueID fullID message host now
        if enc inter then
          Event.storage false (StorageCall.addInteraction (uniqueID.take 20) inter) ::
            (if sf then [Event.warn] else [])
        else [Event.warn]
      else []
    some ([Event.writeEntry, Event.write { resultCode := LDAPResultSuccess }] ++ idEvents ++
      logInteraction opts enc sf now { RemoteAddress := host, RawRequest := message })

def handleAbandon (opts : Options) (enc : Interaction → Bool) (sf : Bool) (now : Nat)
    (found : Bool) (addr : List Char) : List Event :=
  (if found then [Event.abandonInflight] else []) ++
    logInteraction opts enc sf now { RemoteAddress := addr, RawRequest := ("Type=Abandon\n").data }

def handleNotFound (opts : Options) (enc : Interaction → Bool) (sf : Bool) (now : Nat)
    (isBindOp : Bool) (opType addr : List Char) : List Event :=
  (if isBindOp then
    [Event.write { resultCode := LDAPResultSuccess,
                   diagnostic := ("Default binding behavior set to return Success").data }]
  else
    [Event.write { resultCode := LDAPResultUnwillingToPerform,
                   diagnostic := ("Operation not implemented by server").data }]) ++
    logInteraction opts enc sf now
      { RemoteAddress := addr, RawRequest := ("Type=").data ++ opType ++ ("\n").data }

def handleCompare (opts : Options) (enc : Interaction → Bool) (sf : Bool) (now : Nat)
    (attr val addr : List Char) : List Event :=
  [Event.write { resultCode := LDAPResultCompareTrue }] ++
    logInteraction opts enc sf now { RemoteAddress := addr, RawRequest := compareMessage attr val }

def handleAdd (opts : Options) (enc : Interaction → Bool) (sf : Bool) (now : Nat)
    (entity : List Char) (attrs : List (List Char × List Char)) (addr : List Char) : List Event :=
  [Event.write { resultCode := LDAPResultSuccess }] ++
    logInteraction opts enc sf now { RemoteAddress := addr, RawRequest := addMessage entity attrs }

def handleDelete (opts : Options) (enc : Interaction → Bool) (sf : Bool) (now : Nat)
    (entity addr : List Char) : List Event :=
  [Event.write { resultCode := LDAPResultSuccess }] ++
    logInteraction opts enc sf now { RemoteAddress := addr, RawRequest := deleteMessage entity }

def handleModify (opts : Options) (enc : Interaction → Bool) (sf : Bool) (now : Nat)
    (entity : List Char) (changes : List ModifyChange) (addr : List Char) : List Event :=
  [Event.write { resultCode := LDAPResultSuccess }] ++
    logInteraction opts enc sf now
      { RemoteAddress := addr, RawRequest := modifyMessage entity changes }

/-- `handleStartTLS` (lines 292-316): build the TLS config (panics when
`autoTls` is nil, see `getTLSconfig`), write the success extended
response, then attempt the handshake.  On failure (`herr = some e`) the
same response object is rewritten with the operations-error code and a
diagnostic embedding the error string, and the handler returns without
swapping the transport and without recording.  On success the transport
is swapped in place and the transcript is recorded. -/
def handleStartTLS (opts : Options) (autoTls : Option AutoTLS) (enc : Interaction → Bool)
    (sf : Bool) (now : Nat) (herr : Option (List Char)) (addr : List Char) :
    Option (List Event) :=
  match getTLSconfig autoTls with
  | none => none
  | some _ =>
    let res0 : Response := { resultCode := LDAPResultSuccess, responseName := NoticeOfStartTLS }
    match herr with
    | some e =>
      some [Event.write res0,
        Event.write { resultCode := LDAPResultOperationsError,
                      diagnostic := ("StartTLS Handshake error : \"").data ++ e ++ ("\"").data,
                      responseName := NoticeOfStartTLS }]
    | none =>
      some (Event.write res0 :: Event.setConnTLS ::
        logInteraction opts enc sf now
          { RemoteAddress := addr,
            RawRequest := ("Type=StartTLS\nResult=StartTLS OK\n").data })

def handleWhoAmI (opts : Options) (enc : Interaction → Bool) (sf : Bool) (now : Nat)
    (addr : List Char) : List Event :=
  [Event.write { resultCode := LDAPResultSuccess }] ++
    logInteraction opts enc sf now { RemoteAddress := addr, RawRequest := ("Type=WhoAmI\n").data }

def handleExtended (opts : Options) (enc : Interaction → Bool) (sf : Bool) (now : Nat)
    (name value addr : List Char) : List Event :=
  [Event.write { resultCode := LDAPResultSuccess }] ++
    logInteraction opts enc sf now
      { RemoteAddress := addr, RawRequest := extendedMessage name value }

/-- `handleLog` (lines 379-391): the protocol library's internal logger
adapter; the rendered line becomes a record with no remote address. -/
def handleLog (opts : Options) (enc : Interaction → Bool) (sf : Bool) (now : Nat)
    (line : List Char) : List Event :=
  logInteraction opts enc sf now { RawRequest := line }

/-- One handled LDAP operation with the request data each handler reads. -/
inductive LdapOp where
  | bind (ac n p : List Char)
  | search (r : SearchRequest)
  | abandon (found : Bool)
  | notFound (isBindOp : Bool) (opType : List Char)
  | compare (attr val : List Char)
  | add (entity : List Char) (attrs : List (List Char × List Char))
  | del (entity : List Char)
  | modify (entity : List Char) (changes : List ModifyChange)
  | startTLS (herr : Option (List Char))
  | whoAmI
  | extended (name value : List Char)
  | internalLog (line : List Char)

/-- The route dispatch of `NewLDAPServer` (lines 34-45) plus the internal
logger adapter: the event trace of one handled operation.  `none` models
the two panic paths (regexp compile failure, nil `autoTls` in
StartTLS). -/
def dispatch (opts : Options) (autoTls : Option AutoTLS) (enc : Interaction → Bool)
    (sf : Bool) (now : Nat) (addr : List Char) : LdapOp → Option (List Event)
  | .bind ac n p => some (handleBind opts enc sf now ac n p addr)
  | .search r => handleSearch opts enc sf now r addr
  | .abandon found => some (handleAbandon opts enc sf now found addr)
  | .notFound b t => some (handleNotFound opts enc sf now b t addr)
  | .compare a v => some (handleCompare opts enc sf now a v addr)
  | .add e attrs => some (handleAdd opts enc sf now e attrs addr)
  | .del e => some (handleDelete opts enc sf now e addr)
  | .modify e cs => some (handleModify opts enc sf now e cs addr)
  | .startTLS herr => handleStartTLS opts autoTls enc sf now herr addr
  | .whoAmI => some (handleWhoAmI opts enc sf now addr)
  | .extended n v => some (handleExtended opts enc sf now n v addr)
  | .internalLog line => some (handleLog opts enc sf now line)

/-! ## Trace observations -/

def isWriteEv : Event → Bool
  | .write _ => true
  | .writeEntry => true
  | _ => false

def isStorageEv : Event → Bool
  | .storage _ _ => true
  | _ => false

/-- The records handed to the storage boundary, in order. -/
def records (ev : List Event) : List Interaction :=
  ev.filterMap fun e =>
    match e with
    | .storage _ (.addInteraction _ rec) => some rec
    | .storage _ (.addInteractionWithId _ rec) => some rec
    | _ => none

def writesOf (ev : List Event) : List Event := ev.filter isWriteEv

def storageEvents (ev : List Event) : List Event := ev.filter isStorageEv

/-- No protocol write occurs after any storage call: the reply is always
on the wire before persistence is attempted. -/
def writesPrecedeStorage : List Event → Bool
  | [] => true
  | e :: rest =>
    if isStorageEv e then rest.all fun x => !isWriteEv x
    else writesPrecedeStorage rest

/-- Routing and failure-handling contract of the recording path, over
five traces of the same operation: `ev` the given run, `ev0`/`evt` the
runs with serialization always failing resp. always succeeding (same
storage flag), and `ev1`/`ev2` the runs with storage failing
resp. succeeding (same serializer).  Records with a non-empty `UniqueID`
go through `AddInteraction` keyed by the first 20 characters of the id;
all others go through `AddInteractionWithId` with the server token; every
protocol write precedes every storage call; a serialization failure
drops the storage call, leaves a warning, and does not change the
writes; a storage failure leaves a warning and changes neither the
storage calls nor the writes (no retry). -/
def C7Props (opts : Options) (ev ev0 evt ev1 ev2 : List Event) : Prop :=
  (∀ b key rec, Event.storage b (StorageCall.addInteraction key rec) ∈ ev →
    rec.UniqueID ≠ [] ∧ key = rec.UniqueID.take 20) ∧
  (∀ b tok rec, Event.storage b (StorageCall.addInteractionWithId tok rec) ∈ ev →
    tok = opts.Token ∧ rec.UniqueID = []) ∧
  writesPrecedeStorage ev = true ∧
  (storageEvents ev0 = [] ∧ writesOf ev0 = writesOf evt ∧
    (storageEvents evt ≠ [] → Event.warn ∈ ev0)) ∧
  (storageEvents ev1 = storageEvents ev2 ∧ writesOf ev1 = writesOf ev2 ∧
    (storageEvents ev1 ≠ [] → Event.warn ∈ ev1))

/-- Invariant carried by the 33-length scan: the accumulator is either
still the initial empty pair, or it holds some label of `parts` of
length 33 together with the dot-join of the labels up to it. -/
def ScanInv (parts : List (List Char)) (acc : List Char × List Char) : Prop :=
  acc = ([], []) ∨
    ∃ j u, parts[j]? = some u ∧ u.length = 33 ∧ acc = (u, joinDot (parts.take (j + 1)))

/-- How many records each handled operation hands to storage when
serialization succeeds: one per operation, except an identified Search
(two: the inline identified record plus the generic transcript record)
and a StartTLS whose handshake fails (zero: the handler returns before
recording). -/
def expectedRecords (opts : Options) : LdapOp → Nat
  | .search r =>
    match handleSearchIDs opts.Domain r.BaseObject with
    | some (u, _) => if u = [] then 1 else 2
    | none => 0
  | .startTLS herr =>
    match herr with
    | some _ => 0
    | none => 1
  | _ => 1

/-- A storage call issued directly by an operation handler rather than by
`logInteraction`. -/
def isHandlerStorage : Event → Bool
  | .storage false _ => true
  | _ => false

/-! ## Concrete example data shared by witnesses and counterexamples -/

def exDomain : List Char := ("interact.sh").data

/-- A canonical 33-character correlation token (33 times `a`). -/
def exToken33 : List Char := ("aaaaaaaaaaaaaaaaaaaaaaaaaaaaaaaaa").data

/-- Base object of the spec's concrete scenario 2: a leading label, then
the 33-character token, then the configured root domain. -/
def exBaseSub : List Char := ("sub.aaaaaaaaaaaaaaaaaaaaaaaaaaaaaaaaa.interact.sh").data

def exOpts : Options := { Domain := exDomain, Token := ("servertoken").data }

def exHost : List Char := ("10.0.0.1:4444").data

def exSearch : SearchRequest := { BaseObject := exBaseSub }

def exAutoTls : Option AutoTLS := some { cert := Cert.embedded }

/-! ## Lemmas about the split/join/scan machinery -/

theorem splitDot_ne_nil : ∀ s : List Char, splitDot s ≠ [] := by
  intro s
  induction s with
  | nil => simp [splitDot]
  | cons c rest ih =>
    by_cases hc : c = '.'
    · simp [splitDot, hc]
    · simp only [splitDot, if_neg hc]
      cases h : splitDot rest <;> simp [consHead]

theorem mem_splitDot_no_dot : ∀ (s : List Char) (p : List Char), p ∈ splitDot s → '.' ∉ p := by
  intro s
  induction s with
  | nil =>
    intro p hp
    simp [splitDot] at hp
    simp [hp]
  | cons c rest ih =>
    intro p hp
    by_cases hc : c = '.'
    · simp only [splitDot, if_pos hc, List.mem_cons] at hp
      rcases hp with rfl | hp
      · simp
      · exact ih p hp
    · simp only [splitDot, if_neg hc] at hp
      cases h : splitDot rest with
      | nil => exact absurd h (splitDot_ne_nil rest)
      | cons q qs =>
        rw [h] at hp
        simp only [consHead, List.mem_cons] at hp
        rcases hp with rfl | hp
        · intro hmem
          simp only [List.mem_cons] at hmem
          rcases hmem with hd | hmem
          · exact hc hd.symm
          · exact ih q (by rw [h]; simp) hmem
        · exact ih p (by rw [h]; simp [hp])

theorem splitDot_no_dot (p : List Char) (hp : '.' ∉ p) : splitDot p = [p] := by
  induction p with
  | nil => simp [splitDot]
  | cons c q ih =>
    have hc : ¬(c = '.') := fun h => hp (by simp [h])
    have hq : '.' ∉ q := fun h => hp (by simp [h])
    simp only [splitDot, if_neg hc, ih hq, consHead]

theorem splitDot_append_cons (tok rest : List Char) (htok : '.' ∉ tok) :
    splitDot (tok ++ '.' :: rest) = tok :: splitDot rest := by
  induction tok with
  | nil => simp [splitDot]
  | cons c tok ih =>
    have hc : ¬(c = '.') := fun h => htok (by simp [h])
    have htok' : '.' ∉ tok := fun h => htok (by simp [h])
    rw [List.cons_append]
    simp only [splitDot, if_neg hc]
    rw [ih htok']
    simp [consHead]

theorem splitDot_joinDot :
    ∀ l : List (List Char), l ≠ [] → (∀ p ∈ l, '.' ∉ p) → splitDot (joinDot l) = l := by
  intro l
  induction l with
  | nil => intro h; exact absurd rfl h
  | cons p ps ih =>
    intro _ hdot
    cases ps with
    | nil => exact splitDot_no_dot p (hdot p (by simp))
    | cons q qs =>
      have hjoin : joinDot (p :: q :: qs) = p ++ '.' :: joinDot (q :: qs) := rfl
      rw [hjoin, splitDot_append_cons p _ (hdot p (by simp)),
        ih (by simp) (fun r hr => hdot r (by simp [hr]))]

theorem getElem?_of_drop_cons :
    ∀ (l : List (List Char)) (i : Nat) (p : List Char) (rest : List (List Char)),
      l.drop i = p :: rest → l[i]? = some p := by
  intro l
  induction l with
  | nil => intro i p rest h; simp at h
  | cons x xs ih =>
    intro i p rest h
    cases i with
    | zero => simp at h ⊢; exact h.1
    | succ i => simp only [List.drop_succ_cons] at h; simpa using ih i p rest h

theorem drop_succ_of_drop_cons (l : List (List Char)) (i : Nat) (p : List Char)
    (rest : List (List Char)) (h : l.drop i = p :: rest) : l.drop (i + 1) = rest := by
  rw [← List.tail_drop, h]
  rfl

theorem getLast?_take_succ :
    ∀ (l : List (List Char)) (j : Nat) (p : List Char),
      l[j]? = some p → (l.take (j + 1)).getLast? = some p := by
  intro l
  induction l with
  | nil => intro j p h; simp at h
  | cons x xs ih =>
    intro j p h
    cases j with
    | zero =>
      simp at h
      simp [h]
    | succ j =>
      simp only [List.getElem?_cons_succ] at h
      have hrec := ih j p h
      rw [List.take_succ_cons]
      cases ht : xs.take (j + 1) with
      | nil => rw [ht] at hrec; simp at hrec
      | cons b t => rw [ht] at hrec; rw [List.getLast?_cons_cons]; exact hrec

theorem scanLoop_no33 (parts : List (List Char)) :
    ∀ (rest : List (List Char)) (i : Nat) (acc : List Char × List Char),
      (∀ p ∈ rest, p.length ≠ 33) → scanLoop parts i rest acc = acc := by
  intro rest
  induction rest with
  | nil => intro i acc _; rfl
  | cons p rest ih =>
    intro i acc h
    have hp : p.length ≠ 33 := h p (by simp)
    simp only [scanLoop, if_neg hp]
    exact ih (i + 1) acc fun q hq => h q (by simp [hq])

theorem scanLoop_inv (parts : List (List Char)) :
    ∀ (rest : List (List Char)) (i : Nat) (acc : List Char × List Char),
      parts.drop i = rest → ScanInv parts acc → ScanInv parts (scanLoop parts i rest acc) := by
  intro rest
  induction rest with
  | nil => intro i acc _ hinv; simpa [scanLoop] using hinv
  | cons p rest ih =>
    intro i acc hdrop hinv
    have hget : parts[i]? = some p := getElem?_of_drop_cons parts i p rest hdrop
    have hdrop1 : parts.drop (i + 1) = rest := drop_succ_of_drop_cons parts i p rest hdrop
    have hi : i < parts.length := by
      by_contra hlt
      push_neg at hlt
      rw [List.drop_eq_nil_of_le hlt] at hdrop
      exact List.noConfusion hdrop
    simp only [scanLoop]
    apply ih (i + 1) _ hdrop1
    by_cases h33 : p.length = 33
    · right
      refine ⟨i, p, hget, h33, ?_⟩
      simp [h33, Nat.succ_le_of_lt hi]
    · simpa [h33] using hinv

theorem scanLoop_eq_ng (parts : List (List Char)) :
    ∀ (rest : List (List Char)) (i : Nat) (acc : List Char × List Char),
      parts.drop i = rest → scanLoop parts i rest acc = scanLoopNG parts i rest acc := by
  intro rest
  induction rest with
  | nil => intro i acc _; rfl
  | cons p rest ih =>
    intro i acc hdrop
    have hdrop1 : parts.drop (i + 1) = rest := drop_succ_of_drop_cons parts i p rest hdrop
    have hi : i < parts.length := by
      by_contra hlt
      push_neg at hlt
      rw [List.drop_eq_nil_of_le hlt] at hdrop
      exact List.noConfusion hdrop
    simp only [scanLoop, scanLoopNG, Nat.succ_le_of_lt hi, if_true]
    exact ih (i + 1) _ hdrop1

/-- Case analysis of the identifier extraction: either both outputs stay
empty, or some label of index `j` in the split of the leftmost match has
length 33 and the outputs are that label and the join up to it. -/
theorem extractIDs_inv (domain base : List Char) :
    extractIDs domain base = ([], []) ∨
      ∃ j u, (splitDot (findString domain base))[j]? = some u ∧ u.length = 33 ∧
        extractIDs domain base =
          (u, joinDot ((splitDot (findString domain base)).take (j + 1))) := by
  by_cases hm : findString domain base = []
  · left
    simp [extractIDs, hm]
  · have h := scanLoop_inv (splitDot (findString domain base))
      (splitDot (findString domain base)) 0 ([], []) (by simp) (Or.inl rfl)
    have hlen : (splitDot (findString domain base)).length > 0 :=
      List.length_pos.mpr (splitDot_ne_nil _)
    have heq : extractIDs domain base =
        scanLoop (splitDot (findString domain base)) 0 (splitDot (findString domain base))
          ([], []) := by
      simp [extractIDs, hm, hlen]
    rcases h with h0 | ⟨j, u, hj, hu, hacc⟩
    · left; rw [heq, h0]
    · right; exact ⟨j, u, hj, hu, heq.trans hacc⟩

theorem extractIDs_fst_length (domain base : List Char)
    (h : (extractIDs domain base).1 ≠ []) : (extractIDs domain base).1.length = 33 := by
  rcases extractIDs_inv domain base with h0 | ⟨j, u, _, hlen, heq⟩
  · rw [h0] at h; simp at h
  · rw [heq]; exact hlen

theorem extractIDs_eq_ng (domain base : List Char) :
    extractIDs domain base = extractIDsNG domain base := by
  by_cases hm : findString domain base = []
  · simp [extractIDs, extractIDsNG, hm]
  · have hng := scanLoop_eq_ng (splitDot (findString domain base))
      (splitDot (findString domain base)) 0 ([], []) (by simp)
    have hlen : (splitDot (findString domain base)).length > 0 :=
      List.length_pos.mpr (splitDot_ne_nil _)
    simp [extractIDs, extractIDsNG, hm, hlen, hng]

theorem handleSearchIDs_extract (domain base u f : List Char)
    (h : handleSearchIDs domain base = some (u, f)) :
    extractIDs domain base = (u, f) := by
  by_cases hdom : domainLiteralOnly domain = true
  · simpa [handleSearchIDs, hdom] using h
  · simp [handleSearchIDs, hdom] at h

/-! ## Lemmas about logInteraction traces -/

theorem stamped_UniqueID (now : Nat) (inter : Interaction) :
    (stamped now inter).UniqueID = inter.UniqueID := rfl

theorem logInteraction_encFalse (opts : Options) (sf : Bool) (now : Nat)
    (inter : Interaction) :
    logInteraction opts (fun _ => false) sf now inter = [Event.warn] := by
  simp [logInteraction]

theorem mem_logInteraction (opts : Options) (enc : Interaction → Bool) (sf : Bool)
    (now : Nat) (inter : Interaction) (e : Event)
    (he : e ∈ logInteraction opts enc sf now inter) :
    e = Event.storage true
        (StorageCall.addInteractionWithId opts.Token (stamped now inter)) ∨
      e = Event.warn := by
  cases henc : enc (stamped now inter) <;> cases sf <;>
    simp [logInteraction, henc] at he <;> tauto

theorem records_logInteraction (opts : Options) (enc : Interaction → Bool) (sf : Bool)
    (now : Nat) (inter : Interaction) :
    records (logInteraction opts enc sf now inter) =
      if enc (stamped now inter) then [stamped now inter] else [] := by
  cases henc : enc (stamped now inter) <;> cases sf <;>
    simp [logInteraction, records, henc]

theorem storageEvents_logInteraction (opts : Options) (enc : Interaction → Bool) (sf : Bool)
    (now : Nat) (inter : Interaction) :
    storageEvents (logInteraction opts enc sf now inter) =
      if enc (stamped now inter) then
        [Event.storage true (StorageCall.addInteractionWithId opts.Token (stamped now inter))]
      else [] := by
  cases henc : enc (stamped now inter) <;> cases sf <;>
    simp [logInteraction, storageEvents, isStorageEv, henc]

theorem writesOf_logInteraction (opts : Options) (enc : Interaction → Bool) (sf : Bool)
    (now : Nat) (inter : Interaction) :
    writesOf (logInteraction opts enc sf now inter) = [] := by
  cases henc : enc (stamped now inter) <;> cases sf <;>
    simp [logInteraction, writesOf, isWriteEv, henc]

theorem logInteraction_all_no_writes (opts : Options) (enc : Interaction → Bool) (sf : Bool)
    (now : Nat) (inter : Interaction) :
    (logInteraction opts enc sf now inter).all (fun x => !isWriteEv x) = true := by
  cases henc : enc (stamped now inter) <;> cases sf <;>
    simp [logInteraction, isWriteEv, henc]

theorem warn_mem_logInteraction_sfTrue (opts : Options) (enc : Interaction → Bool)
    (now : Nat) (inter : Interaction) :
    Event.warn ∈ logInteraction opts enc true now inter := by
  cases henc : enc (stamped now inter) <;> simp [logInteraction, henc]

theorem writesPrecedeStorage_of_no_writes :
    ∀ rest : List Event, (∀ e ∈ rest, isWriteEv e = false) →
      writesPrecedeStorage rest = true := by
  intro rest
  induction rest with
  | nil => intro _; rfl
  | cons e rest ih =>
    intro h
    by_cases hs : isStorageEv e = true
    · simp only [writesPrecedeStorage, hs, if_true, List.all_eq_true]
      intro x hx
      simp [h x (List.mem_cons_of_mem e hx)]
    · have hs' : isStorageEv e = false := by revert hs; cases isStorageEv e <;> simp
      simp only [writesPrecedeStorage, hs', Bool.false_eq_true, if_false]
      exact ih fun x hx => h x (List.mem_cons_of_mem e hx)

theorem records_append (a b : List Event) : records (a ++ b) = records a ++ records b := by
  simp [records, List.filterMap_append]

theorem records_cons_of_not_storage (e : Event) (l : List Event)
    (he : isStorageEv e = false) : records (e :: l) = records l := by
  cases e with
  | storage b c => simp [isStorageEv] at he
  | write r => simp [records]
  | writeEntry => simp [records]
  | warn => simp [records]
  | abandonInflight => simp [records]
  | setConnTLS => simp [records]

theorem records_logInteraction_mem (opts : Options) (enc : Interaction → Bool) (sf : Bool)
    (now : Nat) (inter : Interaction) (rec : Interaction)
    (h : rec ∈ records (logInteraction opts enc sf now inter)) :
    rec = stamped now inter := by
  rw [records_logInteraction] at h
  cases henc : enc (stamped now inter) <;> rw [henc] at h <;> simp at h
  exact h

theorem writesPrecedeStorage_logInteraction (opts : Options) (enc : Interaction → Bool)
    (sf : Bool) (now : Nat) (inter : Interaction) :
    writesPrecedeStorage (logInteraction opts enc sf now inter) = true := by
  apply writesPrecedeStorage_of_no_writes
  intro e he
  have := logInteraction_all_no_writes opts enc sf now inter
  rw [List.all_eq_true] at this
  have h := this e he
  revert h
  cases isWriteEv e <;> simp

theorem storageEvents_append (a b : List Event) :
    storageEvents (a ++ b) = storageEvents a ++ storageEvents b := by
  simp [storageEvents, List.filter_append]

theorem writesOf_append (a b : List Event) :
    writesOf (a ++ b) = writesOf a ++ writesOf b := by
  simp [writesOf, List.filter_append]

theorem storageEvents_eq_nil_of (w : List Event)
    (hw : ∀ e ∈ w, isStorageEv e = false) : storageEvents w = [] := by
  rw [storageEvents, List.filter_eq_nil_iff]
  intro a ha
  simp [hw a ha]

theorem writesPrecedeStorage_append_of_no_storage (w rest : List Event)
    (hw : ∀ e ∈ w, isStorageEv e = false)
    (hrest : writesPrecedeStorage rest = true) :
    writesPrecedeStorage (w ++ rest) = true := by
  induction w with
  | nil => simpa using hrest
  | cons e w ih =>
    have he : isStorageEv e = false := hw e (by simp)
    simp only [List.cons_append, writesPrecedeStorage, he, Bool.false_eq_true, if_false]
    exact ih fun x hx => hw x (List.mem_cons_of_mem e hx)

/-- The routing and failure-handling contract holds for every trace of
the generic shape `writes ++ logInteraction ...` with an unidentified
record, which is the shape of every handler except the identified part
of Search and the failing StartTLS. -/
theorem generic_c7_all (opts : Options) (enc : Interaction → Bool) (sf : Bool) (now : Nat)
    (w : List Event) (inter : Interaction)
    (hw : ∀ e ∈ w, isStorageEv e = false)
    (hU : inter.UniqueID = []) :
    C7Props opts (w ++ logInteraction opts enc sf now inter)
      (w ++ logInteraction opts (fun _ => false) sf now inter)
      (w ++ logInteraction opts (fun _ => true) sf now inter)
      (w ++ logInteraction opts enc true now inter)
      (w ++ logInteraction opts enc false now inter) := by
  have hsw : storageEvents w = [] := storageEvents_eq_nil_of w hw
  refine ⟨?_, ?_, ?_, ⟨?_, ?_, ?_⟩, ⟨?_, ?_, ?_⟩⟩
  · intro b key rec hmem
    rcases List.mem_append.mp hmem with hmem | hmem
    · have := hw _ hmem
      simp [isStorageEv] at this
    · rcases mem_logInteraction _ _ _ _ _ _ hmem with heq | heq <;> simp at heq
  · intro b tok rec hmem
    rcases List.mem_append.mp hmem with hmem | hmem
    · have := hw _ hmem
      simp [isStorageEv] at this
    · rcases mem_logInteraction _ _ _ _ _ _ hmem with heq | heq
      · simp only [Event.storage.injEq, StorageCall.addInteractionWithId.injEq] at heq
        obtain ⟨_, htok, hrec⟩ := heq
        subst hrec
        exact ⟨htok, hU⟩
      · simp at heq
  · exact writesPrecedeStorage_append_of_no_storage w _ hw
      (writesPrecedeStorage_logInteraction opts enc sf now inter)
  · rw [storageEvents_append, hsw, List.nil_append, logInteraction_encFalse]
    simp [storageEvents, isStorageEv]
  · rw [writesOf_append, writesOf_append, writesOf_logInteraction, writesOf_logInteraction]
  · intro _
    rw [logInteraction_encFalse]
    exact List.mem_append_right _ (by simp)
  · rw [storageEvents_append, storageEvents_append, storageEvents_logInteraction,
      storageEvents_logInteraction]
  · rw [writesOf_append, writesOf_append, writesOf_logInteraction, writesOf_logInteraction]
  · intro _
    exact List.mem_append_right _ (warn_mem_logInteraction_sfTrue opts enc now inter)

/-- The routing and failure-handling contract for the identified Search
trace: the synthetic-entry and done writes, then the inline identified
storage call, then the generic transcript record. -/
theorem search_id_c7 (opts : Options) (enc : Interaction → Bool) (sf : Bool) (now : Nat)
    (interId interG : Interaction) (key : List Char)
    (hUid : interId.UniqueID ≠ []) (hkey : key = interId.UniqueID.take 20)
    (hUg : interG.UniqueID = []) :
    C7Props opts
      ([Event.writeEntry, Event.write { resultCode := LDAPResultSuccess }] ++
        ((if enc interId then
            Event.storage false (StorageCall.addInteraction key interId) ::
              (if sf then [Event.warn] else [])
          else [Event.warn]) ++ logInteraction opts enc sf now interG))
      ([Event.writeEntry, Event.write { resultCode := LDAPResultSuccess }] ++
        ([Event.warn] ++ logInteraction opts (fun _ => false) sf now interG))
      ([Event.writeEntry, Event.write { resultCode := LDAPResultSuccess }] ++
        ((Event.storage false (StorageCall.addInteraction key interId) ::
            (if sf then [Event.warn] else [])) ++
          logInteraction opts (fun _ => true) sf now interG))
      ([Event.writeEntry, Event.write { resultCode := LDAPResultSuccess }] ++
        ((if enc interId then
            Event.storage false (StorageCall.addInteraction key interId) :: [Event.warn]
          else [Event.warn]) ++ logInteraction opts enc true now interG))
      ([Event.writeEntry, Event.write { resultCode := LDAPResultSuccess }] ++
        ((if enc interId then
            [Event.storage false (StorageCall.addInteraction key interId)]
          else [Event.warn]) ++ logInteraction opts enc false now interG)) := by
  refine ⟨?_, ?_, ?_, ⟨?_, ?_, ?_⟩, ⟨?_, ?_, ?_⟩⟩
  · intro b key2 rec hmem
    rcases List.mem_append.mp hmem with hpre | hmem
    · simp at hpre
    rcases List.mem_append.mp hmem with hid | hlg
    · cases henc : enc interId
      · rw [henc] at hid
        simp at hid
      · rw [henc] at hid
        cases sf <;> simp at hid <;>
          · obtain ⟨hb, hk, hrec⟩ := hid
            subst hk
            subst hrec
            exact ⟨hUid, hkey⟩
    · rcases mem_logInteraction _ _ _ _ _ _ hlg with heq | heq <;> simp at heq
  · intro b tok rec hmem
    rcases List.mem_append.mp hmem with hpre | hmem
    · simp at hpre
    rcases List.mem_append.mp hmem with hid | hlg
    · cases henc : enc interId
      · rw [henc] at hid
        simp at hid
      · rw [henc] at hid
        cases sf <;> simp at hid
    · rcases mem_logInteraction _ _ _ _ _ _ hlg with heq | heq
      · simp only [Event.storage.injEq, StorageCall.addInteractionWithId.injEq] at heq
        obtain ⟨_, htok, hrec⟩ := heq
        subst hrec
        exact ⟨htok, hUg⟩
      · simp at heq
  · simp only [List.cons_append, List.nil_append, writesPrecedeStorage, isStorageEv,
      Bool.false_eq_true, if_false]
    cases henc : enc interId
    · simp only [Bool.false_eq_true, if_false]
      simp only [List.cons_append, writesPrecedeStorage, isStorageEv, Bool.false_eq_true,
        if_false]
      exact writesPrecedeStorage_logInteraction opts enc sf now interG
    · simp only [if_true]
      simp only [List.cons_append, writesPrecedeStorage, isStorageEv, if_true]
      simp only [List.append_eq, List.all_append, Bool.and_eq_true]
      refine ⟨?_, logInteraction_all_no_writes opts enc sf now interG⟩
      cases sf <;> simp [isWriteEv]
  · rw [storageEvents_append, storageEvents_append, logInteraction_encFalse]
    simp [storageEvents, isStorageEv]
  · rw [writesOf_append, writesOf_append, writesOf_append, writesOf_append,
      writesOf_logInteraction, writesOf_logInteraction]
    cases sf <;> simp [writesOf, isWriteEv]
  · intro _
    exact List.mem_append_right _ (List.mem_append_left _ (by simp))
  · rw [storageEvents_append, storageEvents_append, storageEvents_append,
      storageEvents_append, storageEvents_logInteraction, storageEvents_logInteraction]
    cases henc : enc interId <;> simp [storageEvents, isStorageEv]
  · rw [writesOf_append, writesOf_append, writesOf_append, writesOf_append,
      writesOf_logInteraction, writesOf_logInteraction]
    cases henc : enc interId <;> simp [writesOf, isWriteEv]
  · intro _
    exact List.mem_append_right _
      (List.mem_append_right _ (warn_mem_logInteraction_sfTrue opts enc now interG))

/-! ## Claim C1 -/

/-- C1, counterexample: for base object `"sub.<33-a token>.interact.sh"`
with domain `"interact.sh"` the Search handler's identifier extraction
returns the bare token as `fullID`, not `"sub." + token` as the claim
states: the compiled pattern `[a-z0-9-]+\.domain` matches exactly one
label before the domain, so the leading label `sub` is not part of the
match. -/
theorem C1_counterexample :
    handleSearchIDs ("interact.sh").data
        ("sub.aaaaaaaaaaaaaaaaaaaaaaaaaaaaaaaaa.interact.sh").data =
      some (("aaaaaaaaaaaaaaaaaaaaaaaaaaaaaaaaa").data,
        ("aaaaaaaaaaaaaaaaaaaaaaaaaaaaaaaaa").data) ∧
    ("aaaaaaaaaaaaaaaaaaaaaaaaaaaaaaaaa").data ≠
      ("sub.aaaaaaaaaaaaaaaaaaaaaaaaaaaaaaaaa").data := by
  exact ⟨by decide, by decide⟩

/-- C1, amended: when the leftmost match of the compiled pattern in the
base object is `tok ++ "." ++ domain` with `tok` of length exactly 33
(and no label of the domain itself has length 33), the extraction
returns `tok` as `uniqueID` and `tok` itself — not the leading labels —
as `fullID`, because the pattern captures exactly one label before the
root domain. -/
theorem C1_unique_id_and_bare_fullid (domain base tok : List Char)
    (hdom : domainLiteralOnly domain = true)
    (hfind : findString domain base = tok ++ '.' :: domain)
    (hlen : tok.length = 33)
    (hcl : '.' ∉ tok)
    (hnd : ∀ p ∈ splitDot domain, p.length ≠ 33) :
    handleSearchIDs domain base = some (tok, tok) := by
  have hsplit : splitDot (tok ++ '.' :: domain) = tok :: splitDot domain :=
    splitDot_append_cons tok domain hcl
  have hm : (tok ++ '.' :: domain : List Char) ≠ [] := by simp
  have hstep : scanLoop (tok :: splitDot domain) 0 (tok :: splitDot domain) ([], []) =
      (tok, tok) := by
    have hguard : 0 + 1 ≤ (tok :: splitDot domain).length := by simp
    simp only [scanLoop, hlen, if_true, hguard, List.take_succ_cons, List.take_zero]
    have : joinDot [tok] = tok := rfl
    rw [this]
    exact scanLoop_no33 (tok :: splitDot domain) (splitDot domain) 1 (tok, tok) hnd
  simp only [handleSearchIDs, hdom, if_true, extractIDs, hfind, if_neg hm, hsplit,
    Option.some.injEq]
  simpa [List.length_pos] using hstep

/-- C1, witness: the amended statement evaluated at the claim's own
concrete scenario (`"sub." + token + ".interact.sh"`, domain
`"interact.sh"`). -/
theorem C1_witness :
    handleSearchIDs exDomain exBaseSub = some (exToken33, exToken33) :=
  C1_unique_id_and_bare_fullid exDomain exBaseSub exToken33
    (by decide) (by decide) (by decide) (by decide) (by decide)

/-! ## Claim C2 -/

/-- C2: when the compiled pattern has no match in the base object the
extraction returns two empty strings, and when a match exists but none
of its dot-separated labels has length exactly 33 both outputs are
likewise empty. -/
theorem C2_empty_outputs (domain base : List Char)
    (hdom : domainLiteralOnly domain = true) :
    (findString domain base = [] → handleSearchIDs domain base = some ([], [])) ∧
    (findString domain base ≠ [] →
      (∀ p ∈ splitDot (findString domain base), p.length ≠ 33) →
      handleSearchIDs domain base = some ([], [])) := by
  constructor
  · intro hm
    simp [handleSearchIDs, hdom, extractIDs, hm]
  · intro hm hno
    have hz : scanLoop (splitDot (findString domain base)) 0
        (splitDot (findString domain base)) ([], []) = ([], []) :=
      scanLoop_no33 _ _ _ _ hno
    have hlen : (splitDot (findString domain base)).length > 0 :=
      List.length_pos.mpr (splitDot_ne_nil _)
    simp [handleSearchIDs, hdom, extractIDs, hm, hlen, hz]

/-- C2, witness: the domain does occur after a label in
`"abc.interact.sh"`, but the label has length 3, so both outputs are
empty. -/
theorem C2_witness :
    handleSearchIDs exDomain ("abc.interact.sh").data = some ([], []) :=
  (C2_empty_outputs exDomain ("abc.interact.sh").data (by decide)).2
    (by decide) (by decide)

/-! ## Claim C3 -/

/-- C3: the claim says identifier extraction never panics because all
domain characters are escaped; the code escapes only dots
(`strings.ReplaceAll(domain, ".", "\\.")`) and discards
`regexp.Compile`'s error.  For the domain `"interact(sh"` the resulting
pattern has an unmatched parenthesis, so compilation fails, the matcher
is nil, and `re.FindString` panics — modelled by the `none` result of
`handleSearchIDs` outside the literal fragment. -/
theorem C3_metachar_domain_breaks_compile :
    parensOk (patternChars ("interact(sh").data) 0 = false ∧
    handleSearchIDs ("interact(sh").data ("path/to/malicious.class").data = none := by
  exact ⟨by decide, by decide⟩

/-! ## Claim C8 -/

/-- C8: the certificate-selection condition of `getTLSconfig` is
inverted relative to the claim: when an automatic-certificate provider
is configured the function loads the embedded self-signed pair (the
provider's certificate is never used), and when no provider is
configured the nil provider handle is dereferenced — a panic, modelled
as `none`. -/
theorem C8_cert_selection_inverted :
    getTLSconfig none = none ∧
    getTLSconfig (some { cert := Cert.provided 7 }) =
      some { minVersion := VersionSSL30, maxVersion := VersionTLS12,
             cert := Cert.embedded, serverName := ("127.0.0.1").data } ∧
    Cert.embedded ≠ Cert.provided 7 := by
  exact ⟨rfl, rfl, by decide⟩

/-! ## Claim C10 -/

/-- C10: in the Search handler's identifier extraction, `uniqueID` is
empty iff `fullID` is empty; when non-empty, `uniqueID` has length 33
and is the last dot-separated label of `fullID`; and the extraction
coincides with the guard-free variant, because the guard
`i+1 <= len(parts)` is always true inside the loop. -/
theorem C10_extraction_invariants (domain base u f : List Char)
    (h : handleSearchIDs domain base = some (u, f)) :
    (u = [] ↔ f = []) ∧
    (u ≠ [] → u.length = 33 ∧ (splitDot f).getLast? = some u) ∧
    extractIDs domain base = extractIDsNG domain base := by
  have hex : extractIDs domain base = (u, f) := handleSearchIDs_extract domain base u f h
  rcases extractIDs_inv domain base with h0 | ⟨j, u', hj, hlen, heq⟩
  · rw [hex] at h0
    simp only [Prod.mk.injEq] at h0
    obtain ⟨hu, hf⟩ := h0
    subst hu
    subst hf
    refine ⟨by simp, ?_, extractIDs_eq_ng domain base⟩
    intro hne
    exact absurd rfl hne
  · rw [hex] at heq
    simp only [Prod.mk.injEq] at heq
    obtain ⟨hu, hf⟩ := heq
    subst hu
    have hune : u ≠ [] := by
      intro h0
      rw [h0] at hlen
      simp at hlen
    have hdotfree : ∀ p ∈ (splitDot (findString domain base)).take (j + 1), '.' ∉ p :=
      fun p hp => mem_splitDot_no_dot _ p (List.take_subset _ _ hp)
    have hlast0 : ((splitDot (findString domain base)).take (j + 1)).getLast? = some u :=
      getLast?_take_succ _ j u hj
    have htakene : (splitDot (findString domain base)).take (j + 1) ≠ [] := by
      intro h0
      rw [h0] at hlast0
      simp at hlast0
    have hsplitf : splitDot f = (splitDot (findString domain base)).take (j + 1) := by
      rw [hf]
      exact splitDot_joinDot _ htakene hdotfree
    have hlast : (splitDot f).getLast? = some u := by
      rw [hsplitf]
      exact hlast0
    have hfne : f ≠ [] := by
      intro h0
      rw [h0] at hsplitf
      rw [← hsplitf] at hlast0
      simp [splitDot] at hlast0
      exact hune hlast0
    exact ⟨⟨fun h0 => absurd h0 hune, fun h0 => absurd h0 hfne⟩,
      fun _ => ⟨hlen, hlast⟩, extractIDs_eq_ng domain base⟩

/-- C10, witness: at the concrete scenario the extracted pair is the
token twice and both invariants evaluate. -/
theorem C10_witness :
    exToken33.length = 33 ∧ (splitDot exToken33).getLast? = some exToken33 :=
  (C10_extraction_invariants exDomain exBaseSub exToken33 exToken33 (by decide)).2.1
    (by decide)

/-! ## Claim C4 -/

/-- C4: whenever the extracted `uniqueID` is non-empty it has length
exactly 33, and (when the record serializes) `handleSearch` issues the
identifier-keyed `AddInteraction` call whose key is exactly the first 20
characters of `uniqueID` — a string of length exactly 20. -/
theorem C4_correlation_key (opts : Options) (enc : Interaction → Bool) (sf : Bool)
    (now : Nat) (r : SearchRequest) (host u f : List Char) (ev : List Event)
    (hids : handleSearchIDs opts.Domain r.BaseObject = some (u, f))
    (hne : u ≠ [])
    (hev : handleSearch opts enc sf now r host = some ev)
    (henc : enc (identifiedInteraction u f (searchMessage r) host now) = true) :
    u.length = 33 ∧ (u.take 20).length = 20 ∧
      Event.storage false (StorageCall.addInteraction (u.take 20)
        (identifiedInteraction u f (searchMessage r) host now)) ∈ ev := by
  have hex : extractIDs opts.Domain r.BaseObject = (u, f) :=
    handleSearchIDs_extract _ _ _ _ hids
  have h33 : u.length = 33 := by
    have h := extractIDs_fst_length opts.Domain r.BaseObject (by rw [hex]; exact hne)
    rwa [hex] at h
  have h20 : (u.take 20).length = 20 := by
    rw [List.length_take, h33]
    decide
  refine ⟨h33, h20, ?_⟩
  simp only [handleSearch, hids, hne, henc, ne_eq, not_false_eq_true, if_true,
    Option.some.injEq] at hev
  subst hev
  simp

/-- C4, witness: at the concrete scenario the derived key is the first
20 characters of the 33-character token and the `AddInteraction` event
is in the handler's trace. -/
theorem C4_witness :
    exToken33.length = 33 ∧ (exToken33.take 20).length = 20 ∧
      Event.storage false (StorageCall.addInteraction (exToken33.take 20)
        (identifiedInteraction exToken33 exToken33 (searchMessage exSearch) exHost 0)) ∈
      (handleSearch exOpts (fun _ => true) false 0 exSearch exHost).getD [] :=
  C4_correlation_key exOpts (fun _ => true) false 0 exSearch exHost exToken33 exToken33
    ((handleSearch exOpts (fun _ => true) false 0 exSearch exHost).getD [])
    (by decide) (by decide) (by rfl) (by rfl)

/-! ## Claim C5 -/

/-- C5, counterexample: a Search whose base DN contains a correlation
token produces two records handed to storage (the inline identified
record and the generic transcript record), not exactly one as the claim
states. -/
theorem C5_counterexample :
    (records ((dispatch exOpts exAutoTls (fun _ => true) false 0 exHost
        (LdapOp.search exSearch)).getD [])).length = 2 ∧ (2 : Nat) ≠ 1 := by
  exact ⟨by decide, by decide⟩

/-- C5, amended: with serialization succeeding, every handled operation
produces exactly one record handed to storage, except a Search whose
base DN yields a non-empty `uniqueID` (exactly two records) and a
StartTLS whose handshake fails (zero records — the handler returns
before recording). -/
theorem C5_record_counts (opts : Options) (autoTls : Option AutoTLS) (sf : Bool)
    (now : Nat) (addr : List Char) (op : LdapOp) (ev : List Event)
    (h : dispatch opts autoTls (fun _ => true) sf now addr op = some ev) :
    (records ev).length = expectedRecords opts op := by
  cases op with
  | bind ac n p =>
    simp only [dispatch, Option.some.injEq] at h
    subst h
    simp only [handleBind]
    rw [records_append, records_logInteraction]
    simp [records, expectedRecords]
  | search r =>
    simp only [dispatch] at h
    cases hids : handleSearchIDs opts.Domain r.BaseObject with
    | none => rw [handleSearch, hids] at h; exact Option.noConfusion h
    | some p =>
      obtain ⟨u, f⟩ := p
      rw [handleSearch, hids] at h
      by_cases hu : u = []
      · simp only [hu, ne_eq, not_true_eq_false, if_false, Option.some.injEq] at h
        subst h
        rw [records_append, records_append, records_logInteraction]
        simp [records, expectedRecords, hids, hu]
      · simp only [hu, ne_eq, not_false_eq_true, if_true, Option.some.injEq] at h
        subst h
        rw [records_append, records_append, records_logInteraction]
        cases sf <;> simp [records, expectedRecords, hids, hu]
  | abandon found =>
    simp only [dispatch, Option.some.injEq] at h
    subst h
    simp only [handleAbandon]
    rw [records_append, records_logInteraction]
    cases found <;> simp [records, expectedRecords]
  | notFound b t =>
    simp only [dispatch, Option.some.injEq] at h
    subst h
    simp only [handleNotFound]
    cases b <;>
      · rw [records_append, records_logInteraction]
        simp [records, expectedRecords]
  | compare a v =>
    simp only [dispatch, Option.some.injEq] at h
    subst h
    simp only [handleCompare]
    rw [records_append, records_logInteraction]
    simp [records, expectedRecords]
  | add e attrs =>
    simp only [dispatch, Option.some.injEq] at h
    subst h
    simp only [handleAdd]
    rw [records_append, records_logInteraction]
    simp [records, expectedRecords]
  | del e =>
    simp only [dispatch, Option.some.injEq] at h
    subst h
    simp only [handleDelete]
    rw [records_append, records_logInteraction]
    simp [records, expectedRecords]
  | modify e cs =>
    simp only [dispatch, Option.some.injEq] at h
    subst h
    simp only [handleModify]
    rw [records_append, records_logInteraction]
    simp [records, expectedRecords]
  | startTLS herr =>
    simp only [dispatch] at h
    cases autoTls with
    | none => rw [handleStartTLS, getTLSconfig] at h; exact Option.noConfusion h
    | some a =>
      cases herr with
      | some e =>
        rw [handleStartTLS, getTLSconfig] at h
        simp only [Option.some.injEq] at h
        subst h
        simp [records, expectedRecords]
      | none =>
        rw [handleStartTLS, getTLSconfig] at h
        simp only [Option.some.injEq] at h
        subst h
        rw [records_cons_of_not_storage _ _ (by rfl), records_cons_of_not_storage _ _ (by rfl),
          records_logInteraction]
        simp [expectedRecords]
  | whoAmI =>
    simp only [dispatch, Option.some.injEq] at h
    subst h
    simp only [handleWhoAmI]
    rw [records_append, records_logInteraction]
    simp [records, expectedRecords]
  | extended n v =>
    simp only [dispatch, Option.some.injEq] at h
    subst h
    simp only [handleExtended]
    rw [records_append, records_logInteraction]
    simp [records, expectedRecords]
  | internalLog line =>
    simp only [dispatch, Option.some.injEq] at h
    subst h
    simp only [handleLog]
    rw [records_logInteraction]
    simp [expectedRecords]

/-- C5, witness: a Bind produces exactly the expected single record. -/
theorem C5_witness :
    (records ((dispatch exOpts exAutoTls (fun _ => true) false 0 exHost
        (LdapOp.bind [] [] [])).getD [])).length =
      expectedRecords exOpts (LdapOp.bind [] [] []) :=
  C5_record_counts exOpts exAutoTls false 0 exHost (LdapOp.bind [] [] [])
    ((dispatch exOpts exAutoTls (fun _ => true) false 0 exHost
      (LdapOp.bind [] [] [])).getD []) (by rfl)

/-! ## Claim C6 -/

/-- C6, counterexample: the identified Search record is handed to
storage directly by the operation handler (`handleSearch` lines
138-151), not by the Recorder `logInteraction`, contradicting the
claim's "both fields are set by the Recorder itself, never by an
operation handler". -/
theorem C6_counterexample :
    ((dispatch exOpts exAutoTls (fun _ => true) false 0 exHost
        (LdapOp.search exSearch)).getD []).any isHandlerStorage = true := by
  decide

/-- C6, amended: on every record-construction path the record handed to
storage has `Protocol = "ldap"` and `Timestamp` equal to the emission
instant; the generic path stamps them inside `logInteraction`, while the
identified Search path stamps them inline in the handler. -/
theorem C6_protocol_timestamp (opts : Options) (autoTls : Option AutoTLS)
    (enc : Interaction → Bool) (sf : Bool) (now : Nat) (addr : List Char)
    (op : LdapOp) (ev : List Event)
    (h : dispatch opts autoTls enc sf now addr op = some ev) :
    ∀ rec ∈ records ev, rec.Protocol = ("ldap").data ∧ rec.Timestamp = now := by
  have hlog : ∀ (w : List Event) (inter : Interaction) (rec : Interaction),
      records w = [] → rec ∈ records (w ++ logInteraction opts enc sf now inter) →
      rec.Protocol = ("ldap").data ∧ rec.Timestamp = now := by
    intro w inter rec hw hrec
    rw [records_append, hw, List.nil_append] at hrec
    have := records_logInteraction_mem opts enc sf now inter rec hrec
    subst this
    exact ⟨rfl, rfl⟩
  cases op with
  | bind ac n p =>
    simp only [dispatch, Option.some.injEq] at h
    subst h
    intro rec hrec
    simp only [handleBind] at hrec
    exact hlog _ _ rec (by rfl) hrec
  | search r =>
    simp only [dispatch] at h
    cases hids : handleSearchIDs opts.Domain r.BaseObject with
    | none => rw [handleSearch, hids] at h; exact Option.noConfusion h
    | some p =>
      obtain ⟨u, f⟩ := p
      rw [handleSearch, hids] at h
      simp only [Option.some.injEq] at h
      subst h
      intro rec hrec
      rw [records_append, records_append,
        show records [Event.writeEntry, Event.write { resultCode := LDAPResultSuccess }] = []
          from rfl, List.nil_append, List.mem_append] at hrec
      rcases hrec with hrec | hrec
      · by_cases hu : u = []
        · rw [if_neg (by simp [hu])] at hrec
          simp [records] at hrec
        · rw [if_pos hu] at hrec
          cases henc2 : enc (identifiedInteraction u f (searchMessage r) addr now) with
          | false =>
            rw [henc2] at hrec
            simp [records] at hrec
          | true =>
            rw [henc2] at hrec
            cases sf <;> simp [records] at hrec <;> subst hrec <;> exact ⟨rfl, rfl⟩
      · have := records_logInteraction_mem opts enc sf now _ rec hrec
        subst this
        exact ⟨rfl, rfl⟩
  | abandon found =>
    simp only [dispatch, Option.some.injEq] at h
    subst h
    intro rec hrec
    simp only [handleAbandon] at hrec
    cases found
    · exact hlog _ _ rec (by rfl) hrec
    · exact hlog _ _ rec (by rfl) hrec
  | notFound b t =>
    simp only [dispatch, Option.some.injEq] at h
    subst h
    intro rec hrec
    simp only [handleNotFound] at hrec
    cases b
    · exact hlog _ _ rec (by rfl) hrec
    · exact hlog _ _ rec (by rfl) hrec
  | compare a v =>
    simp only [dispatch, Option.some.injEq] at h
    subst h
    intro rec hrec
    simp only [handleCompare] at hrec
    exact hlog _ _ rec (by rfl) hrec
  | add e attrs =>
    simp only [dispatch, Option.some.injEq] at h
    subst h
    intro rec hrec
    simp only [handleAdd] at hrec
    exact hlog _ _ rec (by rfl) hrec
  | del e =>
    simp only [dispatch, Option.some.injEq] at h
    subst h
    intro rec hrec
    simp only [handleDelete] at hrec
    exact hlog _ _ rec (by rfl) hrec
  | modify e cs =>
    simp only [dispatch, Option.some.injEq] at h
    subst h
    intro rec hrec
    simp only [handleModify] at hrec
    exact hlog _ _ rec (by rfl) hrec
  | startTLS herr =>
    simp only [dispatch] at h
    cases autoTls with
    | none => rw [handleStartTLS, getTLSconfig] at h; exact Option.noConfusion h
    | some a =>
      cases herr with
      | some e =>
        rw [handleStartTLS, getTLSconfig] at h
        simp only [Option.some.injEq] at h
        subst h
        intro rec hrec
        simp [records] at hrec
      | none =>
        rw [handleStartTLS, getTLSconfig] at h
        simp only [Option.some.injEq] at h
        subst h
        intro rec hrec
        exact hlog [Event.write { resultCode := LDAPResultSuccess, responseName := NoticeOfStartTLS }, Event.setConnTLS] _ rec rfl hrec
  | whoAmI =>
    simp only [dispatch, Option.some.injEq] at h
    subst h
    intro rec hrec
    simp only [handleWhoAmI] at hrec
    exact hlog _ _ rec (by rfl) hrec
  | extended n v =>
    simp only [dispatch, Option.some.injEq] at h
    subst h
    intro rec hrec
    simp only [handleExtended] at hrec
    exact hlog _ _ rec (by rfl) hrec
  | internalLog line =>
    simp only [dispatch, Option.some.injEq] at h
    subst h
    intro rec hrec
    simp only [handleLog] at hrec
    exact hlog [] _ rec rfl hrec

/-- C6, witness: the single record of a WhoAmI operation carries
protocol `"ldap"` and the emission timestamp. -/
theorem C6_witness :
    (stamped 0 { RemoteAddress := exHost,
                 RawRequest := ("Type=WhoAmI\n").data }).Protocol = ("ldap").data ∧
    (stamped 0 { RemoteAddress := exHost,
                 RawRequest := ("Type=WhoAmI\n").data }).Timestamp = 0 :=
  C6_protocol_timestamp exOpts exAutoTls (fun _ => true) false 0 exHost LdapOp.whoAmI
    ((dispatch exOpts exAutoTls (fun _ => true) false 0 exHost LdapOp.whoAmI).getD [])
    (by rfl) (stamped 0 { RemoteAddress := exHost, RawRequest := ("Type=WhoAmI\n").data })
    (by decide)

/-! ## Claim C9 -/

/-- C9: in the StartTLS handler the success extended response is written
before the handshake is attempted; on handshake failure a second write
of the same response object carries the operations-error result code
and a diagnostic containing the handshake error string, and the
transport is not swapped; on handshake success the transport is swapped
in place immediately after the success write, so all subsequent traffic
on the connection uses the encrypted channel. -/
theorem C9_starttls_response_and_transport (opts : Options) (autoTls : Option AutoTLS)
    (enc : Interaction → Bool) (sf : Bool) (now : Nat) (addr : List Char)
    (herr : Option (List Char)) (ev : List Event)
    (h : handleStartTLS opts autoTls enc sf now herr addr = some ev) :
    ev.head? =
      some (Event.write
        { resultCode := LDAPResultSuccess, responseName := NoticeOfStartTLS }) ∧
    (∀ e, herr = some e →
      ev = [Event.write { resultCode := LDAPResultSuccess, responseName := NoticeOfStartTLS },
        Event.write
          { resultCode := LDAPResultOperationsError,
            diagnostic := ("StartTLS Handshake error : \"").data ++ e ++ ("\"").data,
            responseName := NoticeOfStartTLS }] ∧
      (∃ pre suf, ("StartTLS Handshake error : \"").data ++ e ++ ("\"").data =
        pre ++ e ++ suf) ∧
      Event.setConnTLS ∉ ev) ∧
    (herr = none → ev[1]? = some Event.setConnTLS) := by
  cases autoTls with
  | none => rw [handleStartTLS, getTLSconfig] at h; exact Option.noConfusion h
  | some a =>
    cases herr with
    | some e =>
      rw [handleStartTLS, getTLSconfig] at h
      simp only [Option.some.injEq] at h
      subst h
      refine ⟨rfl, ?_, ?_⟩
      · intro e2 he2
        injection he2 with he2
        subst he2
        refine ⟨rfl, ⟨("StartTLS Handshake error : \"").data, ("\"").data, rfl⟩, ?_⟩
        simp
      · intro hnone
        exact Option.noConfusion hnone
    | none =>
      rw [handleStartTLS, getTLSconfig] at h
      simp only [Option.some.injEq] at h
      subst h
      refine ⟨rfl, ?_, ?_⟩
      · intro e2 he2
        exact Option.noConfusion he2
      · intro _
        simp

/-- C9, witness: a simulated handshake error `"boom"` still has the
success response as first write. -/
theorem C9_witness :
    ((handleStartTLS exOpts exAutoTls (fun _ => true) false 0 (some ("boom").data)
        exHost).getD []).head? =
      some (Event.write
        { resultCode := LDAPResultSuccess, responseName := NoticeOfStartTLS }) :=
  (C9_starttls_response_and_transport exOpts exAutoTls (fun _ => true) false 0 exHost
    (some ("boom").data)
    ((handleStartTLS exOpts exAutoTls (fun _ => true) false 0 (some ("boom").data)
      exHost).getD [])
    (by rfl)).1

/-! ## Claim C7 -/

/-- C7: for any handled operation, records with a non-empty `UniqueID`
are routed through `AddInteraction` keyed by the first 20 characters of
the id and all others through `AddInteractionWithId` with the server
token; every protocol write precedes every storage call (the reply is
on the wire before persistence); a serialization failure logs a warning
and skips the storage call without changing the writes; a storage
failure logs a warning and changes neither the storage calls nor the
writes (no retry, no abort). -/
theorem C7_routing_and_failure_handling (opts : Options) (autoTls : Option AutoTLS)
    (enc : Interaction → Bool) (sf : Bool) (now : Nat) (addr : List Char) (op : LdapOp)
    (ev ev0 evt ev1 ev2 : List Event)
    (h : dispatch opts autoTls enc sf now addr op = some ev)
    (h0 : dispatch opts autoTls (fun _ => false) sf now addr op = some ev0)
    (ht : dispatch opts autoTls (fun _ => true) sf now addr op = some evt)
    (h1 : dispatch opts autoTls enc true now addr op = some ev1)
    (h2 : dispatch opts autoTls enc false now addr op = some ev2) :
    C7Props opts ev ev0 evt ev1 ev2 := by
  cases op with
  | bind ac n p =>
    simp only [dispatch, handleBind, Option.some.injEq] at h h0 ht h1 h2
    subst h; subst h0; subst ht; subst h1; subst h2
    exact generic_c7_all opts enc sf now _ _ (by decide) rfl
  | search r =>
    simp only [dispatch] at h h0 ht h1 h2
    cases hids : handleSearchIDs opts.Domain r.BaseObject with
    | none => rw [handleSearch, hids] at h; exact Option.noConfusion h
    | some p =>
      obtain ⟨u, f⟩ := p
      rw [handleSearch, hids] at h h0 ht h1 h2
      by_cases hu : u = []
      · simp only [hu, ne_eq, not_true_eq_false, if_false, Option.some.injEq] at h h0 ht h1 h2
        subst h; subst h0; subst ht; subst h1; subst h2
        exact generic_c7_all opts enc sf now
          [Event.writeEntry, Event.write { resultCode := LDAPResultSuccess }] _
          (by decide) rfl
      · simp only [hu, ne_eq, not_false_eq_true, if_true, Option.some.injEq] at h h0 ht h1 h2
        subst h; subst h0; subst ht; subst h1; subst h2
        exact search_id_c7 opts enc sf now
          (identifiedInteraction u f (searchMessage r) addr now)
          { RemoteAddress := addr, RawRequest := searchMessage r }
          (u.take 20) hu rfl rfl
  | abandon found =>
    simp only [dispatch, handleAbandon, Option.some.injEq] at h h0 ht h1 h2
    subst h; subst h0; subst ht; subst h1; subst h2
    cases found
    · exact generic_c7_all opts enc sf now _ _ (by decide) rfl
    · exact generic_c7_all opts enc sf now _ _ (by decide) rfl
  | notFound b t =>
    simp only [dispatch, handleNotFound, Option.some.injEq] at h h0 ht h1 h2
    subst h; subst h0; subst ht; subst h1; subst h2
    cases b
    · exact generic_c7_all opts enc sf now _ _ (by decide) rfl
    · exact generic_c7_all opts enc sf now _ _ (by decide) rfl
  | compare a v =>
    simp only [dispatch, handleCompare, Option.some.injEq] at h h0 ht h1 h2
    subst h; subst h0; subst ht; subst h1; subst h2
    exact generic_c7_all opts enc sf now _ _ (by decide) rfl
  | add e attrs =>
    simp only [dispatch, handleAdd, Option.some.injEq] at h h0 ht h1 h2
    subst h; subst h0; subst ht; subst h1; subst h2
    exact generic_c7_all opts enc sf now _ _ (by decide) rfl
  | del e =>
    simp only [dispatch, handleDelete, Option.some.injEq] at h h0 ht h1 h2
    subst h; subst h0; subst ht; subst h1; subst h2
    exact generic_c7_all opts enc sf now _ _ (by decide) rfl
  | modify e cs =>
    simp only [dispatch, handleModify, Option.some.injEq] at h h0 ht h1 h2
    subst h; subst h0; subst ht; subst h1; subst h2
    exact generic_c7_all opts enc sf now _ _ (by decide) rfl
  | startTLS herr =>
    simp only [dispatch] at h h0 ht h1 h2
    cases autoTls with
    | none => rw [handleStartTLS, getTLSconfig] at h; exact Option.noConfusion h
    | some a =>
      cases herr with
      | some e =>
        rw [handleStartTLS, getTLSconfig] at h h0 ht h1 h2
        simp only [Option.some.injEq] at h h0 ht h1 h2
        subst h; subst h0; subst ht; subst h1; subst h2
        refine ⟨?_, ?_, ?_, ⟨?_, ?_, ?_⟩, ⟨?_, ?_, ?_⟩⟩
        · intro b key rec hmem
          simp at hmem
        · intro b tok rec hmem
          simp at hmem
        · rfl
        · rfl
        · rfl
        · intro hne
          exact absurd rfl hne
        · rfl
        · rfl
        · intro hne
          exact absurd rfl hne
      | none =>
        rw [handleStartTLS, getTLSconfig] at h h0 ht h1 h2
        simp only [Option.some.injEq] at h h0 ht h1 h2
        subst h; subst h0; subst ht; subst h1; subst h2
        exact generic_c7_all opts enc sf now
          [Event.write { resultCode := LDAPResultSuccess, responseName := NoticeOfStartTLS },
            Event.setConnTLS] _ (by decide) rfl
  | whoAmI =>
    simp only [dispatch, handleWhoAmI, Option.some.injEq] at h h0 ht h1 h2
    subst h; subst h0; subst ht; subst h1; subst h2
    exact generic_c7_all opts enc sf now _ _ (by decide) rfl
  | extended n v =>
    simp only [dispatch, handleExtended, Option.some.injEq] at h h0 ht h1 h2
    subst h; subst h0; subst ht; subst h1; subst h2
    exact generic_c7_all opts enc sf now _ _ (by decide) rfl
  | internalLog line =>
    simp only [dispatch, handleLog, Option.some.injEq] at h h0 ht h1 h2
    subst h; subst h0; subst ht; subst h1; subst h2
    exact generic_c7_all opts enc sf now [] _ (by decide) rfl

/-- C7, witness: the contract evaluated on a concrete Compare operation
under all four serializer/storage-flag combinations. -/
theorem C7_witness :
    C7Props exOpts
      ((dispatch exOpts exAutoTls (fun _ => true) false 0 exHost
        (LdapOp.compare [] [])).getD [])
      ((dispatch exOpts exAutoTls (fun _ => false) false 0 exHost
        (LdapOp.compare [] [])).getD [])
      ((dispatch exOpts exAutoTls (fun _ => true) false 0 exHost
        (LdapOp.compare [] [])).getD [])
      ((dispatch exOpts exAutoTls (fun _ => true) true 0 exHost
        (LdapOp.compare [] [])).getD [])
      ((dispatch exOpts exAutoTls (fun _ => true) false 0 exHost
        (LdapOp.compare [] [])).getD []) :=
  C7_routing_and_failure_handling exOpts exAutoTls (fun _ => true) false 0 exHost
    (LdapOp.compare [] []) _ _ _ _ _ (by rfl) (by rfl) (by rfl) (by rfl) (by rfl)

end LdapSpec
